import Mathlib

/-!
Verification of the MX RDATA codec (src/rr/rdata/mx.rs): the value type
with its constructor and accessors, binary read/emit, zone-file text
parse, and Display formatting.  The collaborating types (Name, BinDecoder,
BinEncoder, Token, the error types) live outside the given sources, so
they are modelled from the specification; the MX codec functions
themselves are translated directly from the Rust source.
-/

namespace MxRdata

/-- Modelled from the spec: a domain name is an ordered sequence of labels
(the Name type is external to this module; the spec describes it as a
"domain name value with ordered label sequence").  Labels are kept as
strings, matching the ASCII regime of DNS names; the wire form maps each
character to its code point, which coincides with its byte for ASCII
labels (the validity predicate below restricts to that regime). -/
structure Name where
  labels : List String
deriving DecidableEq

/-- MX RDATA value, from the struct in mx.rs: a 16-bit preference and an
exchange Name.  The u16 is modelled as a Nat; theorems that need the
16-bit bound state it as a hypothesis. -/
structure MX where
  preference : Nat
  exchange : Name
deriving DecidableEq

/-- Constructor, from MX::new in mx.rs: stores both arguments unchanged. -/
def MX.new (preference : Nat) (exchange : Name) : MX :=
  { preference := preference, exchange := exchange }

/-- Modelled from the spec: the token stream is "a sequence of lexical
tokens (character-data, lists, etc.)".  Only the character-data variant
carries the payload the MX parser consumes; the other variants stand for
the remaining token kinds. -/
inductive Token where
  | charData (s : String)
  | list (entries : List String)
  | blank
  | eol
deriving DecidableEq

/-- True exactly on the character-data token kind. -/
def Token.isCharData : Token → Bool
  | Token.charData _ => true
  | _ => false

/-- Modelled from the spec: the parse-error taxonomy of section 7 —
missing-token (naming the field), unexpected-token-kind (carrying the
offending token), numeric-parse failure, and the Name parser's own
failure for a relative name without an origin. -/
inductive ParseErrorKind where
  | missingToken (field : String)
  | unexpectedToken (t : Token)
  | numberParseError (s : String)
  | relativeNameError (s : String)
deriving DecidableEq

/-- Modelled from the spec: parsing a token's character-data "as an
unsigned 16-bit integer; a non-numeric or out-of-range string fails" —
one or more decimal digits denoting a value at most 65535. -/
def parseU16 (s : String) : Option Nat :=
  if s.data ≠ [] ∧ s.data.all Char.isDigit then
    let v := s.data.foldl (fun a c => a * 10 + (c.toNat - 48)) 0
    if v < 65536 then some v else none
  else none

/-- Modelled from the spec: Name.parse resolves zone-file text — a name
with a trailing dot is absolute; a relative name is resolved against the
origin when one is supplied, and is an error surfaced by the Name parser
when none is. -/
def Name.parse (s : String) (origin : Option Name) : Except ParseErrorKind Name :=
  if s = "." then Except.ok { labels := [] }
  else if s.endsWith "." then Except.ok { labels := (s.dropRight 1).splitOn "." }
  else
    match origin with
    | some o => Except.ok { labels := s.splitOn "." ++ o.labels }
    | none => Except.error (ParseErrorKind.relativeNameError s)

/-- One step of the token iterator: Iterator::next on a list view. -/
def nextTok : List Token → Option (Token × List Token)
  | [] => none
  | t :: ts => some (t, ts)

/-- Text parse, translated from the parse function in mx.rs: take the next
token (missing-token "preference" if exhausted; unexpected-token if not
character-data; numeric-parse error if not a u16), then the next token
(missing-token "exchange" if exhausted; unexpected-token if not
character-data; otherwise Name::parse against the origin), and construct
the value via MX::new. -/
def parse (tokens : List Token) (origin : Option Name) : Except ParseErrorKind MX :=
  match nextTok tokens with
  | none => Except.error (ParseErrorKind.missingToken "preference")
  | some (t, rest) =>
    match t with
    | Token.charData s =>
      match parseU16 s with
      | none => Except.error (ParseErrorKind.numberParseError s)
      | some preference =>
        match nextTok rest with
        | none => Except.error (ParseErrorKind.missingToken "exchange")
        | some (t2, _) =>
          match t2 with
          | Token.charData s2 =>
            match Name.parse s2 origin with
            | Except.error e => Except.error e
            | Except.ok exchange => Except.ok (MX.new preference exchange)
          | _ => Except.error (ParseErrorKind.unexpectedToken t2)
    | _ => Except.error (ParseErrorKind.unexpectedToken t)

/-- Modelled from the spec: the text form of a name is its dot-separated
labels with a trailing dot per standard zone-file display. -/
def labelsDisplay : List String → String
  | [] => ""
  | l :: ls => l ++ "." ++ labelsDisplay ls

/-- Textual form of a Name: every label followed by a dot. -/
def Name.display (n : Name) : String :=
  labelsDisplay n.labels

/-- Display for MX, translated from the fmt::Display impl in mx.rs:
the decimal preference, one space, the exchange text. -/
def MX.display (mx : MX) : String :=
  Nat.repr mx.preference ++ " " ++ mx.exchange.display

/-- Modelled from the derived Hash instance on MX: each field is fed, in
declaration order, into an abstract hasher state; the hasher steps for
the two field types are parameters. -/
def MX.hashFields (hU : Nat → Nat → Nat) (hN : Nat → Name → Nat)
    (state : Nat) (mx : MX) : Nat :=
  hN (hU state mx.preference) mx.exchange

/-- Modelled from the spec: the decode-error taxonomy of section 7 —
truncation (insufficient data) and malformed-name (here: a label length
byte outside the plain-label range). -/
inductive DecodeError where
  | insufficientData
  | badLabelLength (len : Nat)
deriving DecidableEq

/-- Modelled from the spec: the binary decoder is a sequential cursor over
a byte buffer; the state is the remaining bytes.  Compression pointers
are not modelled (the emitter below never produces them, and the spec
treats pointer resolution as the external Name type's concern). -/
structure BinDecoder where
  buffer : List Nat
deriving DecidableEq

/-- Modelled from the spec: read one unsigned 16-bit integer in network
byte order (first byte is the high byte), failing when fewer than two
bytes remain in the decoder's bound. -/
def BinDecoder.read_u16 (d : BinDecoder) : Except DecodeError (Nat × BinDecoder) :=
  match d.buffer with
  | b0 :: b1 :: rest => Except.ok (b0 * 256 + b1, { buffer := rest })
  | _ => Except.error DecodeError.insufficientData

/-- Bytes back to a string, one character per byte. -/
def stringOfBytes (bs : List Nat) : String :=
  String.mk (bs.map Char.ofNat)

/-- Modelled from the spec: the wire form of one label — a length byte
followed by the label's bytes (character code points; these coincide with
bytes in the ASCII regime that Name.isValid restricts to). -/
def wireLabel (l : String) : List Nat :=
  l.length :: l.data.map Char.toNat

/-- Modelled from the spec: standard DNS wire encoding of a label
sequence — length-prefixed labels followed by the zero-length root
terminator. -/
def wireLabels : List String → List Nat
  | [] => [0]
  | l :: ls => wireLabel l ++ wireLabels ls

/-- Wire format of a whole name. -/
def Name.wireFormat (n : Name) : List Nat :=
  wireLabels n.labels

/-- Modelled from the spec: ASCII uppercase letters are replaced by the
corresponding lowercase letters; every other character is unchanged. -/
def lowerChar (c : Char) : Char :=
  if 65 ≤ c.toNat ∧ c.toNat ≤ 90 then Char.ofNat (c.toNat + 32) else c

/-- Lowercase-fold one label. -/
def lowerLabel (l : String) : String :=
  String.mk (l.data.map lowerChar)

/-- Lowercase-fold every label of a name; the label structure is kept. -/
def Name.lower (n : Name) : Name :=
  { labels := n.labels.map lowerLabel }

/-- Modelled from the spec: read a name's labels from the byte stream —
a zero length byte terminates; a length byte in the plain-label range
1..63 is followed by that many label bytes; anything longer is a
malformed label length; running out of bytes is a truncation error.
The fuel argument (instantiated with the buffer length) bounds the
recursion so the definition stays structural. -/
def readLabelsAux : Nat → List Nat → Except DecodeError (List String × List Nat)
  | _, [] => Except.error DecodeError.insufficientData
  | 0, _ :: _ => Except.error DecodeError.insufficientData
  | fuel + 1, len :: rest =>
    if len = 0 then Except.ok ([], rest)
    else if 63 < len then Except.error (DecodeError.badLabelLength len)
    else if rest.length < len then Except.error DecodeError.insufficientData
    else
      match readLabelsAux fuel (rest.drop len) with
      | Except.ok (ls, r) => Except.ok (stringOfBytes (rest.take len) :: ls, r)
      | Except.error e => Except.error e

/-- Modelled from the spec: Name::read consumes one wire-encoded name
from the decoder and returns the name and the advanced decoder. -/
def Name.read (d : BinDecoder) : Except DecodeError (Name × BinDecoder) :=
  match readLabelsAux d.buffer.length d.buffer with
  | Except.ok (ls, r) => Except.ok ({ labels := ls }, { buffer := r })
  | Except.error e => Except.error e

/-- Modelled from the spec: the binary encoder is an append-only byte
sink with a boolean canonical-names mode set once per encode pass.
Sink failures are out of scope (section 4.2 treats them as propagated
from the environment), so writes are modelled as total. -/
structure BinEncoder where
  buffer : List Nat
  canonical_names : Bool
deriving DecidableEq

/-- The encoder's canonical-names mode flag. -/
def BinEncoder.is_canonical_names (e : BinEncoder) : Bool :=
  e.canonical_names

/-- Modelled from the spec: append one unsigned 16-bit integer in network
byte order (high byte first). -/
def BinEncoder.emit_u16 (e : BinEncoder) (v : Nat) : BinEncoder :=
  { e with buffer := e.buffer ++ [v / 256 % 256, v % 256] }

/-- Modelled from the spec: Name::emit_with_lowercase appends the name's
wire form, lowering every ASCII uppercase letter in every label when the
flag is set; the name value itself is never changed — lowering happens
only in the emitted bytes.  Compression-pointer emission is not
modelled. -/
def Name.emit_with_lowercase (n : Name) (e : BinEncoder) (lower : Bool) : BinEncoder :=
  { e with buffer := e.buffer ++ Name.wireFormat (if lower then n.lower else n) }

/-- Binary read, translated from the read function in mx.rs: read a u16
(the preference), then a Name (the exchange), early-returning either
error, and construct the value via MX::new. -/
def read (decoder : BinDecoder) : Except DecodeError (MX × BinDecoder) :=
  match decoder.read_u16 with
  | Except.error e => Except.error e
  | Except.ok (preference, d1) =>
    match Name.read d1 with
    | Except.error e => Except.error e
    | Except.ok (exchange, d2) => Except.ok (MX.new preference exchange, d2)

/-- Binary emit, translated from the emit function in mx.rs: query the
canonical-names flag once, write the preference as a u16, then emit the
exchange with lowercasing governed by the flag. -/
def emit (encoder : BinEncoder) (mx : MX) : BinEncoder :=
  let is_canonical := encoder.is_canonical_names
  let e1 := encoder.emit_u16 mx.preference
  mx.exchange.emit_with_lowercase e1 is_canonical

/-- Validity of a name for the wire model, per the spec: label length and
character constraints are the Name type's own business — labels are
nonempty, at most 63 bytes, and ASCII (so one character is one byte). -/
def Name.isValid (n : Name) : Prop :=
  ∀ l ∈ n.labels, 1 ≤ l.length ∧ l.length ≤ 63 ∧ ∀ c ∈ l.data, c.toNat < 128

instance (n : Name) : Decidable n.isValid := by
  unfold Name.isValid
  infer_instance

end MxRdata

namespace MxRdata

/-- C10: MX::new performs no validation and the accessors return the
constructor arguments exactly — for every preference p and name n,
(MX.new p n).preference = p and (MX.new p n).exchange = n; construction
is a total function, so it always succeeds. -/
theorem new_is_identity_on_fields (p : Nat) (n : Name) :
    (MX.new p n).preference = p ∧ (MX.new p n).exchange = n :=
  ⟨rfl, rfl⟩

/-- C9: two MX values are equal iff their preference fields are equal and
their exchange names are equal (the Name equality of the model), and the
derived field-by-field hash is a function of the value, so equal values
hash equally for every hasher. -/
theorem eq_iff_fields_and_hash :
    (∀ a b : MX, a = b ↔ a.preference = b.preference ∧ a.exchange = b.exchange) ∧
    (∀ (hU : Nat → Nat → Nat) (hN : Nat → Name → Nat) (state : Nat) (a b : MX),
      a = b → MX.hashFields hU hN state a = MX.hashFields hU hN state b) := by
  constructor
  · intro a b
    cases a with
    | mk ap ae =>
      cases b with
      | mk bp be => simp [MX.preference, MX.exchange]
  · intro hU hN state a b hab
    rw [hab]

/-- C9 witness: the equality criterion and hash congruence evaluated at a
concrete pair of equal values with a concrete hasher. -/
theorem eq_iff_fields_and_hash_witness :
    MX.hashFields (fun s x => s * 31 + x) (fun s n => s + n.labels.length) 7
        (MX.new 5 { labels := ["a"] })
      = MX.hashFields (fun s x => s * 31 + x) (fun s n => s + n.labels.length) 7
        (MX.new 5 { labels := ["a"] }) :=
  eq_iff_fields_and_hash.2 (fun s x => s * 31 + x) (fun s n => s + n.labels.length) 7
    (MX.new 5 { labels := ["a"] }) (MX.new 5 { labels := ["a"] }) rfl

/-- C5 counterexample: a stream of exactly one token need not fail with a
missing-token error naming "exchange" — when the single token is not
character-data, parse fails with UnexpectedToken on the first field
instead. -/
theorem single_token_not_always_missing_exchange :
    parse [Token.blank] none = Except.error (ParseErrorKind.unexpectedToken Token.blank) ∧
    parse [Token.blank] none ≠ Except.error (ParseErrorKind.missingToken "exchange") := by
  exact ⟨rfl, by simp [parse, nextTok]⟩

/-- C5 (amended): parse of an empty token stream fails with a
missing-token error naming "preference"; parse of a stream of exactly one
token fails with a missing-token error naming "exchange" provided the
single token is character-data that parses as a u16. -/
theorem parse_missing_token_diagnostics (origin : Option Name) :
    parse [] origin = Except.error (ParseErrorKind.missingToken "preference") ∧
    (∀ s v, parseU16 s = some v →
      parse [Token.charData s] origin = Except.error (ParseErrorKind.missingToken "exchange")) := by
  refine ⟨rfl, ?_⟩
  intro s v hv
  simp [parse, nextTok, hv]

/-- C5 witness: the diagnostics at a concrete origin and a concrete valid
preference token. -/
theorem parse_missing_token_diagnostics_witness :
    parse [Token.charData "16"] none = Except.error (ParseErrorKind.missingToken "exchange") :=
  (parse_missing_token_diagnostics none).2 "16" 16 (by decide)

/-- C6: a present but non-character-data token at the first consumed
position fails with UnexpectedToken carrying that token; likewise at the
second consumed position (reached once the first token parsed as a u16);
and a character-data first token that is not a valid u16 fails with the
numeric-parse error. -/
theorem parse_token_kind_errors (ts : List Token) (origin : Option Name) :
    (∀ t rest, ts = t :: rest → t.isCharData = false →
      parse ts origin = Except.error (ParseErrorKind.unexpectedToken t)) ∧
    (∀ s rest, ts = Token.charData s :: rest → parseU16 s = none →
      parse ts origin = Except.error (ParseErrorKind.numberParseError s)) ∧
    (∀ s v t2 rest, ts = Token.charData s :: t2 :: rest → parseU16 s = some v →
      t2.isCharData = false →
      parse ts origin = Except.error (ParseErrorKind.unexpectedToken t2)) := by
  refine ⟨?_, ?_, ?_⟩
  · intro t rest hts ht
    subst hts
    cases t <;> simp_all [Token.isCharData, parse, nextTok]
  · intro s rest hts hs
    subst hts
    simp [parse, nextTok, hs]
  · intro s v t2 rest hts hs ht2
    subst hts
    cases t2 <;> simp_all [Token.isCharData, parse, nextTok]

/-- C6 witness: the second-position UnexpectedToken diagnostic at a
concrete stream whose first token is a valid preference. -/
theorem parse_token_kind_errors_witness :
    parse [Token.charData "16", Token.blank] none
      = Except.error (ParseErrorKind.unexpectedToken Token.blank) :=
  (parse_token_kind_errors [Token.charData "16", Token.blank] none).2.2 "16" 16
    Token.blank [] rfl (by decide) rfl

/-- C7: parse is positional and consumes exactly two tokens — on any
stream with at least two tokens it returns the same result as on the
stream truncated to its first two tokens, so trailing tokens have no
effect. -/
theorem parse_ignores_extra_tokens (ts : List Token) (origin : Option Name)
    (h : 2 ≤ ts.length) :
    parse ts origin = parse (ts.take 2) origin := by
  match ts with
  | [] => simp at h
  | [a] => simp at h
  | a :: b :: rest => rfl

/-- C7 witness: a three-token stream parses exactly as its two-token
truncation. -/
theorem parse_ignores_extra_tokens_witness :
    parse [Token.charData "16", Token.charData "mail.example.com.", Token.eol] none
      = parse ([Token.charData "16", Token.charData "mail.example.com.", Token.eol].take 2) none :=
  parse_ignores_extra_tokens
    [Token.charData "16", Token.charData "mail.example.com.", Token.eol] none (by decide)

/-- C8: Display is a total function producing the decimal preference, one
space, and the exchange text in which every label is followed by a dot
(so a nonempty name ends in a trailing dot); the concrete value with
preference 16 and labels mail, example, com formats as the expected
string. -/
theorem display_formats (p : Nat) (n : Name) :
    MX.display (MX.new p n) = Nat.repr p ++ " " ++ labelsDisplay n.labels ∧
    (∀ l ls, ∃ pre, labelsDisplay (l :: ls) = pre ++ ".") ∧
    MX.display (MX.new 16 { labels := ["mail", "example", "com"] }) = "16 mail.example.com." := by
  refine ⟨rfl, ?_, by decide⟩
  intro l ls
  induction ls generalizing l with
  | nil => exact ⟨l, by simp [labelsDisplay, String.append_empty]⟩
  | cons x xs ih =>
    obtain ⟨pre, hpre⟩ := ih x
    exact ⟨l ++ "." ++ pre, by
      show l ++ "." ++ labelsDisplay (x :: xs) = l ++ "." ++ pre ++ "."
      rw [hpre, ← String.append_assoc]⟩

lemma read_u16_cons (p : Nat) (rest : List Nat) (hp : p < 65536) :
    BinDecoder.read_u16 { buffer := p / 256 % 256 :: p % 256 :: rest }
      = Except.ok (p, { buffer := rest }) := by
  simp only [BinDecoder.read_u16]
  congr 1
  rw [Prod.mk.injEq]
  exact ⟨by omega, rfl⟩

lemma wireLabels_length_lt (ls : List String) : ls.length < (wireLabels ls).length := by
  induction ls with
  | nil => simp [wireLabels]
  | cons l ls ih =>
    simp only [wireLabels, wireLabel, List.length_cons, List.length_append]
    omega

lemma lowerLabel_length (l : String) : (lowerLabel l).length = l.length := by
  show (l.data.map lowerChar).length = l.length
  rw [List.length_map]
  rfl

lemma wireLabels_lower_length (ls : List String) :
    (wireLabels (ls.map lowerLabel)).length = (wireLabels ls).length := by
  induction ls with
  | nil => rfl
  | cons l ls ih =>
    simp only [List.map_cons, wireLabels, wireLabel, List.length_append, List.length_cons,
      List.length_map, lowerLabel, ih]

lemma stringOfBytes_of_wire (l : String) : stringOfBytes (l.data.map Char.toNat) = l := by
  have h : (l.data.map Char.toNat).map Char.ofNat = l.data := by
    rw [List.map_map]
    simp [Function.comp_def, Char.ofNat_toNat]
  show String.mk ((l.data.map Char.toNat).map Char.ofNat) = l
  rw [h]

lemma data_length_eq (l : String) : l.data.length = l.length := rfl

lemma readLabelsAux_wire (ls : List String) (tail : List Nat) (fuel : Nat)
    (hfuel : ls.length < fuel)
    (hval : ∀ l ∈ ls, 1 ≤ l.length ∧ l.length ≤ 63) :
    readLabelsAux fuel (wireLabels ls ++ tail) = Except.ok (ls, tail) := by
  induction ls generalizing fuel tail with
  | nil =>
    match fuel, hfuel with
    | f + 1, _ => simp [wireLabels, readLabelsAux]
  | cons l ls ih =>
    match fuel, hfuel with
    | f + 1, hf =>
      have hl := hval l (List.mem_cons_self l ls)
      have hbytes : wireLabels (l :: ls) ++ tail
          = l.length :: (l.data.map Char.toNat ++ (wireLabels ls ++ tail)) := by
        simp [wireLabels, wireLabel]
      have hmaplen : (l.data.map Char.toNat).length = l.length := by
        rw [List.length_map, data_length_eq]
      have hdrop : (l.data.map Char.toNat ++ (wireLabels ls ++ tail)).drop l.length
          = wireLabels ls ++ tail := by
        rw [← hmaplen, List.drop_left]
      have htake : (l.data.map Char.toNat ++ (wireLabels ls ++ tail)).take l.length
          = l.data.map Char.toNat := by
        rw [← hmaplen, List.take_left]
      have hrec : readLabelsAux f (wireLabels ls ++ tail) = Except.ok (ls, tail) := by
        apply ih
        · have : (l :: ls).length < f + 1 := hf
          simp only [List.length_cons] at this
          omega
        · exact fun x hx => hval x (List.mem_cons_of_mem l hx)
      rw [hbytes]
      simp only [readLabelsAux]
      rw [if_neg (by omega), if_neg (by omega),
        if_neg (by rw [List.length_append, hmaplen]; omega)]
      rw [hdrop, hrec, htake, stringOfBytes_of_wire]

lemma name_read_wire (ls : List String) (tail : List Nat)
    (hval : ∀ l ∈ ls, 1 ≤ l.length ∧ l.length ≤ 63) :
    Name.read { buffer := wireLabels ls ++ tail }
      = Except.ok ({ labels := ls }, { buffer := tail }) := by
  have hfuel : ls.length < (wireLabels ls ++ tail).length := by
    have := wireLabels_length_lt ls
    rw [List.length_append]
    omega
  simp only [Name.read, readLabelsAux_wire ls tail _ hfuel hval]

lemma lower_labels_length_valid (ls : List String)
    (h : ∀ l ∈ ls, 1 ≤ l.length ∧ l.length ≤ 63) :
    ∀ l ∈ ls.map lowerLabel, 1 ≤ l.length ∧ l.length ≤ 63 := by
  intro l hl
  obtain ⟨x, hx, rfl⟩ := List.mem_map.mp hl
  rw [lowerLabel_length]
  exact h x hx

/-- C1: encoding an MX value with emit and decoding the bytes with read
round-trips — with canonical mode off the decoded value is field-for-field
equal; with canonical mode on the decoded preference is unchanged and the
decoded exchange is the ASCII-lowercase fold of the original, whose label
structure (label list and each label's length) is preserved. -/
theorem emit_read_roundtrip (p : Nat) (n : Name) (hp : p < 65536) (hn : n.isValid) :
    read { buffer := (emit { buffer := [], canonical_names := false } (MX.new p n)).buffer }
      = Except.ok (MX.new p n, { buffer := [] }) ∧
    read { buffer := (emit { buffer := [], canonical_names := true } (MX.new p n)).buffer }
      = Except.ok (MX.new p n.lower, { buffer := [] }) ∧
    n.lower.labels = n.labels.map lowerLabel ∧
    ∀ l, (lowerLabel l).length = l.length := by
  have hval : ∀ l ∈ n.labels, 1 ≤ l.length ∧ l.length ≤ 63 :=
    fun l hl => ⟨(hn l hl).1, (hn l hl).2.1⟩
  have hbuf : ∀ c : Bool,
      (emit { buffer := [], canonical_names := c } (MX.new p n)).buffer
        = p / 256 % 256 :: p % 256
            :: (wireLabels (if c then n.lower else n).labels ++ []) := by
    intro c
    simp [emit, BinEncoder.emit_u16, Name.emit_with_lowercase,
      BinEncoder.is_canonical_names, Name.wireFormat, MX.new, MX.exchange, MX.preference]
  refine ⟨?_, ?_, rfl, lowerLabel_length⟩
  · rw [hbuf false]
    simp only [read, Bool.false_eq_true, if_false,
      read_u16_cons p _ hp, name_read_wire n.labels [] hval]
  · rw [hbuf true]
    simp only [read, if_true, read_u16_cons p _ hp, Name.lower,
      name_read_wire (n.labels.map lowerLabel) []
        (lower_labels_length_valid n.labels hval)]

/-- C1 witness: the round-trip at the spec's concrete scenario — the value
with preference 16 and an uppercase first label decodes, after canonical
emission, to the lowercase-folded exchange with the preference intact. -/
theorem emit_read_roundtrip_witness :
    read { buffer :=
        (emit { buffer := [], canonical_names := true }
          (MX.new 16 { labels := ["Mail", "example", "com"] })).buffer }
      = Except.ok
          (MX.new 16 (Name.lower { labels := ["Mail", "example", "com"] }),
            { buffer := [] }) :=
  (emit_read_roundtrip 16 { labels := ["Mail", "example", "com"] }
    (by decide) (by decide)).2.1

/-- C2: read consumes one network-byte-order u16 (the preference) and then
one Name (the exchange) from the resulting position, returning the MX
value built from the two fields in that order; a failure of either
sub-read is returned unchanged, and with fewer than two bytes the u16
read itself fails with insufficient data. -/
theorem read_field_order (d : BinDecoder) :
    (∀ e, d.read_u16 = Except.error e → read d = Except.error e) ∧
    (∀ p d1 e, d.read_u16 = Except.ok (p, d1) → Name.read d1 = Except.error e →
      read d = Except.error e) ∧
    (∀ p d1 n d2, d.read_u16 = Except.ok (p, d1) → Name.read d1 = Except.ok (n, d2) →
      read d = Except.ok (MX.new p n, d2)) ∧
    (d.buffer.length < 2 → d.read_u16 = Except.error DecodeError.insufficientData) ∧
    (∀ b0 b1 rest, d.buffer = b0 :: b1 :: rest →
      d.read_u16 = Except.ok (b0 * 256 + b1, { buffer := rest })) := by
  obtain ⟨buf⟩ := d
  refine ⟨?_, ?_, ?_, ?_, ?_⟩
  · intro e h
    simp only [read, h]
  · intro p d1 e h1 h2
    simp only [read, h1, h2]
  · intro p d1 n d2 h1 h2
    simp only [read, h1, h2]
  · intro hlen
    match buf, hlen with
    | [], _ => rfl
    | [b], _ => rfl
  · intro b0 b1 rest h
    simp only at h
    subst h
    rfl

/-- C2 witness: the success path evaluated on the three-byte buffer
holding preference 16 followed by the root name. -/
theorem read_field_order_witness :
    read { buffer := [0, 16, 0] }
      = Except.ok (MX.new 16 { labels := [] }, { buffer := [] }) :=
  (read_field_order { buffer := [0, 16, 0] }).2.2.1 16 { buffer := [0] }
    { labels := [] } { buffer := [] } rfl rfl

/-- C3: emit writes the preference as a network-byte-order u16 and then
the exchange's wire form (lowered exactly when the canonical flag read
from the encoder is set); the emitted length is 2 plus the exchange's
wire length in either mode, the two preference bytes come first
regardless of mode, and for a 16-bit preference they are exactly its
network-byte-order representation. -/
theorem emit_layout (enc : BinEncoder) (mx : MX) :
    (emit enc mx).buffer
      = enc.buffer ++ ([mx.preference / 256 % 256, mx.preference % 256]
          ++ Name.wireFormat (if enc.is_canonical_names then mx.exchange.lower
              else mx.exchange)) ∧
    (emit enc mx).buffer.length
      = enc.buffer.length + (2 + (Name.wireFormat mx.exchange).length) ∧
    ((emit enc mx).buffer.drop enc.buffer.length).take 2
      = [mx.preference / 256 % 256, mx.preference % 256] ∧
    (mx.preference < 65536 →
      (mx.preference / 256 % 256) * 256 + mx.preference % 256 = mx.preference) := by
  have h1 : (emit enc mx).buffer
      = enc.buffer ++ ([mx.preference / 256 % 256, mx.preference % 256]
          ++ Name.wireFormat (if enc.is_canonical_names then mx.exchange.lower
              else mx.exchange)) := by
    simp [emit, BinEncoder.emit_u16, Name.emit_with_lowercase,
      BinEncoder.is_canonical_names]
  refine ⟨h1, ?_, ?_, fun h => by omega⟩
  · rw [h1]
    cases hc : enc.is_canonical_names with
    | false =>
      simp only [Bool.false_eq_true, if_false, List.length_append, List.length_cons, List.length_nil]
    | true =>
      simp only [if_true, Name.wireFormat, Name.lower, wireLabels_lower_length,
        List.length_append, List.length_cons, List.length_nil]
  · rw [h1, List.drop_left]
    rfl

/-- C3 witness: the network-byte-order identity discharged at a concrete
encoder and a concrete in-range preference. -/
theorem emit_layout_witness :
    (300 / 256 % 256) * 256 + 300 % 256 = 300 :=
  (emit_layout { buffer := [], canonical_names := true }
    (MX.new 300 { labels := ["a"] })).2.2.2 (by decide)

/-- C4: emit leaves the MX value unchanged — in the embedding of the Rust
signature the value is taken by shared reference, so emit returns only
the updated encoder; the canonical lowering appears only in the emitted
bytes while the value (whose accessors return exactly the constructor
arguments) still holds the original, unlowered exchange and the original
preference. -/
theorem emit_leaves_value_unchanged (buf : List Nat) (c : Bool) (p : Nat) (n : Name) :
    (emit { buffer := buf, canonical_names := c } (MX.new p n)).buffer
      = buf ++ ([p / 256 % 256, p % 256] ++ Name.wireFormat (if c then n.lower else n)) ∧
    (emit { buffer := buf, canonical_names := c } (MX.new p n)).canonical_names = c ∧
    (MX.new p n).preference = p ∧ (MX.new p n).exchange = n := by
  refine ⟨?_, rfl, rfl, rfl⟩
  simp [emit, BinEncoder.emit_u16, Name.emit_with_lowercase,
    BinEncoder.is_canonical_names, MX.new, MX.preference, MX.exchange]

end MxRdata
